import Mathlib

/-!
Verification development for the audio playback engine of PaperReader-AI
(`src/Audio.py`).  The engine is the loop body of `Audio.speak`: every tick it
reports progress, dequeues at most one controller command from
`audio_command_queue`, and checks whether the device finished the track.
`Audio._play_all_papers_async` is the playlist runner driving `speak` once per
paper.  The pygame device is external: its observable readings
(`get_pos`, `get_busy`) are supplied per tick as environment inputs, and the
calls the engine makes into it (`pause`, `unpause`, `stop`, `play`) are
recorded as an output trace.  Real-number quantities (seconds, durations) are
modelled as rationals.
-/

namespace PaperReader

/-- Engine-instance state of `Audio` that the playback loop reads and writes:
`is_paused` (set in `__init__`, line 20, and toggled by commands),
`seek_offset` (line 25, reset by `speak` line 28, set by `seek` line 112),
and the pending contents of `audio_command_queue` (front of the list is the
oldest command, i.e. the one `get()` returns next). -/
structure EngineState where
  is_paused : Bool
  seek_offset : ℚ
  queue : List String
deriving DecidableEq, Repr

/-- Environment data for one tick of the loop: the commands that arrived on
`audio_command_queue` since the previous tick (appended at the back of the
queue), the device reading `pygame.mixer.music.get_pos()` in milliseconds
(line 107), and the device reading `pygame.mixer.music.get_busy()`
(line 84). -/
structure TickInput where
  arrivals : List String
  posMs : ℤ
  busy : Bool
deriving DecidableEq, Repr

/-- Observable events the engine emits on its two outbound queues:
`tick` is the `{"progress", "duration"}` status update (line 54), the three
`log…` events are the pause/resume/stop log messages (lines 62, 66, 69),
`seekError` is the seek warning (line 77), `ended` is the `{"ended": True}`
status update (line 85), `playLog` is the per-paper announcement (line 97),
`delay` is the inter-paper `asyncio.sleep` (line 99), and `workflowDone` is
the `{"workflow_done": True}` status update (line 100). -/
inductive Event where
  | tick (progress : ℚ) (duration : ℚ)
  | logPaused
  | logResumed
  | logStopped
  | seekError
  | ended
  | playLog (title : String)
  | delay (seconds : ℚ)
  | workflowDone
deriving DecidableEq, Repr

/-- Calls the engine makes into the pygame device. -/
inductive DeviceCall where
  | pause
  | unpause
  | stop
  | play (start : ℚ)
deriving DecidableEq, Repr

/-- How a run of the `speak` loop ends: via the `stop` command branch
(line 70) or via the completion check (line 86). -/
inductive LoopExit where
  | stopped
  | ended
deriving DecidableEq, Repr

/-- Decimal digits read as a natural number (helper for the model of Python
`float`). -/
def natOfDigits (l : List Char) : ℕ :=
  l.foldl (fun a c => 10 * a + (c.toNat - 48)) 0

/-- True when `l` is a nonempty list of decimal digits. -/
def allDigits (l : List Char) : Bool :=
  !l.isEmpty && l.all Char.isDigit

/-- Splitting on a separator character, accumulator form: models Python
`str.split(sep)` for a one-character separator (every occurrence of `sep`
ends a field, so `"seek:".split(":") = ["seek", ""]`). -/
def splitOnCharAux (sep : Char) : List Char → List Char → List (List Char)
  | [], acc => [acc.reverse]
  | c :: cs, acc =>
      if c = sep then acc.reverse :: splitOnCharAux sep cs []
      else splitOnCharAux sep cs (c :: acc)

/-- Model of Python `str.split(sep)` for a one-character separator. -/
def splitOnChar (sep : Char) (l : List Char) : List (List Char) :=
  splitOnCharAux sep l []

/-- Leading and trailing whitespace removed (Python `float` strips its
argument before parsing). -/
def trimChars (l : List Char) : List Char :=
  ((l.dropWhile Char.isWhitespace).reverse.dropWhile Char.isWhitespace).reverse

/-- Unsigned decimal literal: digits with an optional fractional part
(`"5"`, `"5."`, `".5"`, `"5.25"`). -/
def parseDecimalCore (l : List Char) : Option ℚ :=
  match splitOnChar '.' l with
  | [i] => if allDigits i then some (natOfDigits i) else none
  | [i, f] =>
      if (allDigits i || i.isEmpty) && (allDigits f || f.isEmpty)
          && !(i.isEmpty && f.isEmpty) then
        some ((natOfDigits i : ℚ) + (natOfDigits f : ℚ) / (10 : ℚ) ^ f.length)
      else none
  | _ => none

/-- Model of CPython `float(s)` (line 73) on ordinary decimal literals:
surrounding whitespace is stripped, an optional sign precedes digits with an
optional fractional part; anything else fails (raises `ValueError`, returning
`none` here).  Python additionally accepts exponents, `inf`/`nan` and digit
underscores, which no claim exercises. -/
def parsePyFloat (l : List Char) : Option ℚ :=
  match trimChars l with
  | '-' :: rest => (parseDecimalCore rest).map (fun q => -q)
  | '+' :: rest => parseDecimalCore rest
  | t => parseDecimalCore t

/-- The payload `command.split(":")[1]` of a seek command (line 73): the text
between the first colon and the second colon or end of string. -/
def seekPayload (c : String) : List Char :=
  (splitOnChar ':' c.data).getD 1 []

/-- Model of `command.startswith("seek:")` (line 71). -/
def startsWithSeek (c : String) : Bool :=
  "seek:".data.isPrefixOf c.data

/-- Result of dispatching one dequeued command (the body of lines 59-77);
`brk` records whether the branch executed `break`. -/
structure CmdResult where
  state : EngineState
  events : List Event
  calls : List DeviceCall
  brk : Bool
deriving DecidableEq, Repr

/-- Command dispatch, lines 59-77 of `src/Audio.py`.  `st.queue` is already
the queue with the command removed.  A `pause` while paused and a `resume`
while playing fall through every branch (the guards on lines 59 and 63) and
do nothing, as does any unrecognized string.  A seek whose payload fails to
parse as a float is logged as a warning and ignored (lines 76-77). -/
def applyCommand (st : EngineState) (c : String) : CmdResult :=
  if c = "pause" ∧ st.is_paused = false then
    ⟨⟨true, st.seek_offset, st.queue⟩, [Event.logPaused], [DeviceCall.pause], false⟩
  else if c = "resume" ∧ st.is_paused = true then
    ⟨⟨false, st.seek_offset, st.queue⟩, [Event.logResumed], [DeviceCall.unpause], false⟩
  else if c = "stop" then
    ⟨st, [Event.logStopped], [DeviceCall.stop], true⟩
  else if startsWithSeek c = true then
    match parsePyFloat (seekPayload c) with
    | some t =>
        ⟨⟨false, t, st.queue⟩, [], [DeviceCall.stop, DeviceCall.play t], false⟩
    | none => ⟨st, [Event.seekError], [], false⟩
  else ⟨st, [], [], false⟩

/-- Result of one loop iteration: the successor state, the events emitted,
the device calls made, and whether (and how) the loop exited. -/
structure TickResult where
  state : EngineState
  events : List Event
  calls : List DeviceCall
  exit : Option LoopExit
deriving DecidableEq, Repr

/-- Steps 3 and 4 of the iteration (lines 79-86): while paused the completion
check is skipped (`continue`); otherwise, when the device is no longer busy,
`{"ended": True}` is emitted and the loop breaks. -/
def completionCheck (st : EngineState) (busy : Bool) (evts : List Event)
    (calls : List DeviceCall) : TickResult :=
  if st.is_paused then ⟨st, evts, calls, none⟩
  else if busy then ⟨st, evts, calls, none⟩
  else ⟨st, evts ++ [Event.ended], calls, some LoopExit.ended⟩

/-- One iteration of the `while True` loop of `Audio.speak`
(lines 48-86): report progress unless paused (lines 52-54, using
`get_current_position` = `seek_offset + get_pos()/1000`, line 107); then, if
the queue is non-empty, dequeue and dispatch ONE command (the `if` on
line 57 — not a drain loop); a `stop` command breaks out immediately;
otherwise run the completion check. -/
def tick (duration : ℚ) (st : EngineState) (inp : TickInput) : TickResult :=
  let progressEvts : List Event :=
    if st.is_paused then []
    else [Event.tick (st.seek_offset + (inp.posMs : ℚ) / 1000) duration]
  match st.queue with
  | [] => completionCheck st inp.busy progressEvts []
  | c :: rest =>
      let r := applyCommand ⟨st.is_paused, st.seek_offset, rest⟩ c
      if r.brk then ⟨r.state, progressEvts ++ r.events, r.calls, some LoopExit.stopped⟩
      else completionCheck r.state inp.busy (progressEvts ++ r.events) r.calls

/-- Cumulative result of running the loop over a finite trace of tick
inputs; `exit = none` means the trace ran out before the loop terminated. -/
structure RunResult where
  state : EngineState
  events : List Event
  calls : List DeviceCall
  exit : Option LoopExit
deriving DecidableEq, Repr

/-- The `while True` loop of `Audio.speak` driven by a finite trace of
environment inputs: each tick first receives the commands that arrived since
the previous tick (appended at the back of the queue), then executes the
iteration body; the loop stops at the first exiting iteration. -/
def run (duration : ℚ) : EngineState → List TickInput → RunResult
  | st, [] => ⟨st, [], [], none⟩
  | st, inp :: rest =>
      let r := tick duration ⟨st.is_paused, st.seek_offset, st.queue ++ inp.arrivals⟩ inp
      match r.exit with
      | some e => ⟨r.state, r.events, r.calls, some e⟩
      | none =>
          let r2 := run duration r.state rest
          ⟨r2.state, r.events ++ r2.events, r.calls ++ r2.calls, r2.exit⟩

/-- Model of `Audio.speak` (lines 27-89): resets `seek_offset` to `0.0` together with
the per-track duration and file (lines 28-30) but does NOT reset
`is_paused`, then synthesizes the audio (the resulting track duration is the
parameter `duration`), starts playback, and runs the loop. -/
def speak (duration : ℚ) (st : EngineState) (inps : List TickInput) : RunResult :=
  run duration ⟨st.is_paused, 0, st.queue⟩ inps

/-- A paper as the playlist runner consumes it (title and summary,
lines 93-95). -/
structure Paper where
  title : String
  summary : String
deriving DecidableEq, Repr

/-- Result of the playlist runner: final engine state and the full event
trace. -/
structure PlaylistResult where
  state : EngineState
  events : List Event
deriving DecidableEq, Repr

/-- The per-paper loop of `Audio._play_all_papers_async` (lines 92-99): for
each paper in order, announce it, run `speak` to completion, then
`asyncio.sleep(1)`, and continue with the next paper unconditionally.  Each
paper carries its synthesized track duration and the environment inputs for
its session. -/
def playPapers : EngineState → List (Paper × ℚ × List TickInput) → PlaylistResult
  | st, [] => ⟨st, []⟩
  | st, (p, dur, inps) :: rest =>
      let r := speak dur st inps
      let r2 := playPapers r.state rest
      ⟨r2.state, (Event.playLog p.title :: r.events ++ [Event.delay 1]) ++ r2.events⟩

/-- Model of `Audio._play_all_papers_async` (lines 91-100): run the per-paper
loop, then emit the workflow-done status update once. -/
def playAllPapers (st : EngineState)
    (papers : List (Paper × ℚ × List TickInput)) : PlaylistResult :=
  let r := playPapers st papers
  ⟨r.state, r.events ++ [Event.workflowDone]⟩

/-- The `progress` values of the `Tick` status updates in a trace, in
emission order. -/
def tickElapsed (l : List Event) : List ℚ :=
  l.filterMap (fun e => match e with | Event.tick p _ => some p | _ => none)

/-- The titles of the per-paper announcements in a trace, in emission
order. -/
def titleEvents (l : List Event) : List String :=
  l.filterMap (fun e => match e with | Event.playLog s => some s | _ => none)

/-- True when every stop log in the trace is its very last element: nothing
at all is emitted after a processed `stop`. -/
def stopTerminal : List Event → Bool
  | [] => true
  | Event.logStopped :: rest => rest.isEmpty
  | _ :: rest => stopTerminal rest

/-- Commands that can never clear the paused flag: anything but `resume`,
`stop` and `seek:` messages. -/
def staysPausedCmd (c : String) : Prop :=
  c ≠ "resume" ∧ c ≠ "stop" ∧ startsWithSeek c = false

instance (c : String) : Decidable (staysPausedCmd c) := by
  unfold staysPausedCmd; infer_instance

/-! ### Basic lemmas about the iteration pieces -/

lemma completionCheck_state (st : EngineState) (b : Bool) (e : List Event)
    (c : List DeviceCall) : (completionCheck st b e c).state = st := by
  cases h : st.is_paused <;> cases b <;> simp [completionCheck, h]

lemma completionCheck_calls (st : EngineState) (b : Bool) (e : List Event)
    (c : List DeviceCall) : (completionCheck st b e c).calls = c := by
  cases h : st.is_paused <;> cases b <;> simp [completionCheck, h]

lemma completionCheck_exit (st : EngineState) (b : Bool) (e : List Event)
    (c : List DeviceCall) :
    (completionCheck st b e c).exit =
      if st.is_paused || b then none else some LoopExit.ended := by
  cases h : st.is_paused <;> cases b <;> simp [completionCheck, h]

lemma completionCheck_events (st : EngineState) (b : Bool) (e : List Event)
    (c : List DeviceCall) :
    (completionCheck st b e c).events =
      if st.is_paused || b then e else e ++ [Event.ended] := by
  cases h : st.is_paused <;> cases b <;> simp [completionCheck, h]

lemma startsWithSeek_ne (c : String) (hs : startsWithSeek c = true) :
    c ≠ "pause" ∧ c ≠ "resume" ∧ c ≠ "stop" := by
  refine ⟨?_, ?_, ?_⟩ <;> rintro rfl <;> revert hs <;> decide

lemma startsWithSeek_pause : startsWithSeek "pause" = false := by decide

lemma startsWithSeek_resume : startsWithSeek "resume" = false := by decide

lemma startsWithSeek_stop : startsWithSeek "stop" = false := by decide

lemma applyCommand_state_queue (st : EngineState) (c : String) :
    (applyCommand st c).state.queue = st.queue := by
  unfold applyCommand
  split
  · rfl
  · split
    · rfl
    · split
      · rfl
      · split
        · split <;> rfl
        · rfl

lemma tick_queue (duration : ℚ) (st : EngineState) (inp : TickInput) :
    (tick duration st inp).state.queue = st.queue.drop 1 := by
  rcases hq : st.queue with _ | ⟨c, rest⟩
  · simp [tick, hq, completionCheck_state]
  · simp only [tick, hq]
    split
    · exact applyCommand_state_queue ⟨st.is_paused, st.seek_offset, rest⟩ c
    · rw [completionCheck_state]
      exact applyCommand_state_queue ⟨st.is_paused, st.seek_offset, rest⟩ c

lemma applyCommand_state_seek_offset (st : EngineState) (c : String)
    (hc : startsWithSeek c = false) :
    (applyCommand st c).state.seek_offset = st.seek_offset := by
  unfold applyCommand
  split
  · rfl
  · split
    · rfl
    · split
      · rfl
      · split
        · rename_i h
          rw [hc] at h
          exact absurd h (by simp)
        · rfl

lemma applyCommand_events_sub (st : EngineState) (c : String) :
    ∀ e ∈ (applyCommand st c).events,
      e = Event.logPaused ∨ e = Event.logResumed ∨ e = Event.logStopped ∨
        e = Event.seekError := by
  unfold applyCommand
  split
  · simp
  · split
    · simp
    · split
      · simp
      · split
        · split <;> simp
        · simp

lemma applyCommand_brk (st : EngineState) (c : String) :
    (applyCommand st c).brk = true →
      c = "stop" ∧
        applyCommand st c = ⟨st, [Event.logStopped], [DeviceCall.stop], true⟩ := by
  unfold applyCommand
  split
  · intro h
    simp at h
  · split
    · intro h
      simp at h
    · split
      · rename_i h3
        exact fun _ => ⟨h3, rfl⟩
      · split
        · split
          · intro h
            simp at h
          · intro h
            simp at h
        · intro h
          simp at h

lemma applyCommand_no_stopLog (st : EngineState) (c : String) :
    (applyCommand st c).brk = false →
      Event.logStopped ∉ (applyCommand st c).events := by
  unfold applyCommand
  split
  · intro _
    simp
  · split
    · intro _
      simp
    · split
      · intro h
        simp at h
      · split
        · split
          · intro _
            simp
          · intro _
            simp
        · intro _
          simp

/-- Every event a tick can emit: the progress report with exactly the value
`seek_offset + get_pos()/1000`, one of the four command log messages, or the
`Ended` status update. -/
lemma tick_events_shape (duration : ℚ) (st : EngineState) (inp : TickInput) :
    ∀ e ∈ (tick duration st inp).events,
      e = Event.tick (st.seek_offset + (inp.posMs : ℚ) / 1000) duration ∨
        e = Event.logPaused ∨ e = Event.logResumed ∨ e = Event.logStopped ∨
        e = Event.seekError ∨ e = Event.ended := by
  intro e he
  rcases hq : st.queue with _ | ⟨c, rest⟩
  · simp only [tick, hq, completionCheck_events] at he
    split at he
    · rcases hp : st.is_paused
      · simp [hp] at he
        tauto
      · simp [hp] at he
    · rcases hp : st.is_paused
      · simp [hp] at he
        tauto
      · simp [hp] at he
        tauto
  · simp only [tick, hq] at he
    split at he
    · rw [List.mem_append] at he
      rcases he with he | he
      · rcases hp : st.is_paused
        · simp [hp] at he
          tauto
        · simp [hp] at he
      · have h := applyCommand_events_sub ⟨st.is_paused, st.seek_offset, rest⟩ c e he
        tauto
    · rw [completionCheck_events] at he
      split at he
      · rw [List.mem_append] at he
        rcases he with he | he
        · rcases hp : st.is_paused
          · simp [hp] at he
            tauto
          · simp [hp] at he
        · have h := applyCommand_events_sub ⟨st.is_paused, st.seek_offset, rest⟩ c e he
          tauto
      · simp only [List.append_assoc, List.mem_append] at he
        rcases he with he | he | he
        · rcases hp : st.is_paused
          · simp [hp] at he
            tauto
          · simp [hp] at he
        · have h := applyCommand_events_sub ⟨st.is_paused, st.seek_offset, rest⟩ c e he
          tauto
        · simp at he
          tauto

/-! ### C1 -/

/-- Claim C1 counterexample: with two commands pending (`["resume",
"resume"]`, device busy, not paused) the iteration reaches the completion
check (`exit = none`, so `isBusy` ran) while one command still sits in the
queue — the loop body dequeues at most one command per tick (the `if` on
line 57 of `src/Audio.py`), it does not drain the channel. -/
theorem C1_counterexample :
    (tick 1 ⟨false, 0, ["resume", "resume"]⟩ ⟨[], 0, true⟩).exit = none ∧
    (tick 1 ⟨false, 0, ["resume", "resume"]⟩ ⟨[], 0, true⟩).state.queue
      = ["resume"] := by
  constructor <;> simp [tick, applyCommand, completionCheck, startsWithSeek]

/-- Claim C1, amended: on every tick, before making any completion decision,
the engine dequeues and applies at most ONE pending command (non-blocking,
in arrival order); the commands beyond the first remain pending when the
completion check runs — for every tick and queue state, the queue at the
completion check is the pending queue minus its first element. -/
theorem C1_amended_one_command_per_tick (duration : ℚ) (st : EngineState)
    (inp : TickInput) :
    (tick duration st inp).state.queue = st.queue.drop 1 :=
  tick_queue duration st inp

/-! ### C2 -/

/-- Claim C2 counterexample: queue `["resume", "stop"]`, not paused, track
just ended (`busy = false`).  The tick dequeues only `resume` (a no-op while
playing), then the completion check fires: `Ended` is emitted and the loop
exits as `ended` while the `stop` command is still pending in the channel —
the `Stop` is lost for this document (it leaks into the next session). -/
theorem C2_counterexample :
    (tick 1 ⟨false, 0, ["resume", "stop"]⟩ ⟨[], 0, false⟩).exit
        = some LoopExit.ended ∧
    (tick 1 ⟨false, 0, ["resume", "stop"]⟩ ⟨[], 0, false⟩).state.queue
        = ["stop"] ∧
    Event.ended ∈ (tick 1 ⟨false, 0, ["resume", "stop"]⟩ ⟨[], 0, false⟩).events := by
  refine ⟨?_, ?_, ?_⟩ <;> simp [tick, applyCommand, completionCheck, startsWithSeek]

/-- Claim C2, amended: the engine emits `Ended` only when the device reports
not busy, the engine is unpaused after this tick's command processing, and
the single command dequeued this tick (if any) was not `stop`.  Hence a
`Stop` at the FRONT of the queue in the tick the track ends is processed
first and the engine exits as Stopped; but because only one command is
dequeued per tick, a `Stop` queued behind another command can be outrun:
`Ended` may then be emitted with the `Stop` still pending. -/
theorem C2_amended_ended_conditions (duration : ℚ) (st : EngineState)
    (inp : TickInput)
    (h : (tick duration st inp).exit = some LoopExit.ended) :
    inp.busy = false ∧ (tick duration st inp).state.is_paused = false ∧
      st.queue.head? ≠ some "stop" := by
  rcases hq : st.queue with _ | ⟨c, rest⟩ <;> simp only [tick, hq] at h ⊢
  · rw [completionCheck_exit] at h
    rw [completionCheck_state]
    rcases hp : st.is_paused <;> rcases hb : inp.busy <;>
      simp [hp, hb] at h ⊢
  · rcases hbrk : (applyCommand ⟨st.is_paused, st.seek_offset, rest⟩ c).brk
    · simp only [hbrk, Bool.false_eq_true, if_false] at h ⊢
      rw [completionCheck_exit] at h
      rw [completionCheck_state]
      rcases hp : (applyCommand ⟨st.is_paused, st.seek_offset, rest⟩ c).state.is_paused <;>
        rcases hb : inp.busy <;> simp [hp, hb] at h ⊢
      intro hc
      subst hc
      simp [applyCommand] at hbrk
    · simp [hbrk] at h

/-- Witness for `C2_amended_ended_conditions`: empty queue, device not busy —
the theorem applies and yields the stated conditions. -/
theorem C2_amended_witness :
    (tick 1 ⟨false, 0, []⟩ ⟨[], 0, false⟩).exit = some LoopExit.ended ∧
      ((false : Bool) = false ∧
        (tick 1 ⟨false, 0, []⟩ ⟨[], 0, false⟩).state.is_paused = false ∧
        ([] : List String).head? ≠ some "stop") := by
  have hexit : (tick 1 ⟨false, 0, []⟩ ⟨[], 0, false⟩).exit = some LoopExit.ended := by
    simp [tick, completionCheck]
  exact ⟨hexit, C2_amended_ended_conditions 1 ⟨false, 0, []⟩ ⟨[], 0, false⟩ hexit⟩

/-! ### C9 -/

/-- Claim C9: `Pause` and `Resume` are idempotent.  Dequeuing `pause` while
already paused falls through every branch of the dispatch: the flag and the
offset are unchanged, no device call is made and no event is emitted (not
even a progress report, since the engine is paused).  Dequeuing `resume`
while playing likewise changes nothing and calls nothing; the events of the
tick are exactly the ordinary progress report plus, when the device is no
longer busy, the ordinary `Ended` — nothing spurious. -/
theorem C9_pause_resume_idempotent (duration : ℚ) (st : EngineState)
    (inp : TickInput) (rest : List String) :
    (st.queue = "pause" :: rest → st.is_paused = true →
      tick duration st inp = ⟨⟨true, st.seek_offset, rest⟩, [], [], none⟩) ∧
    (st.queue = "resume" :: rest → st.is_paused = false →
      tick duration st inp =
        ⟨⟨false, st.seek_offset, rest⟩,
          Event.tick (st.seek_offset + (inp.posMs : ℚ) / 1000) duration ::
            (if inp.busy then [] else [Event.ended]),
          [], if inp.busy then none else some LoopExit.ended⟩) := by
  constructor
  · intro hq hp
    simp [tick, hq, hp, applyCommand, startsWithSeek_pause, completionCheck]
  · intro hq hp
    rcases hb : inp.busy <;>
      simp [tick, hq, hp, hb, applyCommand, startsWithSeek_resume, completionCheck]

/-- Witness for `C9_pause_resume_idempotent`: both parts applied at concrete
states. -/
theorem C9_witness :
    tick 1 ⟨true, 2, ["pause", "x"]⟩ ⟨[], 5, true⟩
        = ⟨⟨true, 2, ["x"]⟩, [], [], none⟩ ∧
      tick 1 ⟨false, 2, ["resume"]⟩ ⟨[], 500, true⟩
        = ⟨⟨false, 2, []⟩, [Event.tick (2 + (500 : ℤ) / 1000) 1], [], none⟩ := by
  constructor
  · exact (C9_pause_resume_idempotent 1 ⟨true, 2, ["pause", "x"]⟩ ⟨[], 5, true⟩ ["x"]).1
      rfl rfl
  · have h := (C9_pause_resume_idempotent 1 ⟨false, 2, ["resume"]⟩ ⟨[], 500, true⟩ []).2 rfl rfl
    simpa using h

/-! ### C10 -/

/-- Claim C10 counterexample: the command `"seek:-5"` parses (`float("-5")`
succeeds) and the engine applies it without any sign check — the device is
told to play from `-5` and `seek_offset` becomes `-5`, violating the claimed
invariant `seconds ≥ 0`. -/
theorem C10_counterexample :
    (tick 1 ⟨false, 0, ["seek:-5"]⟩ ⟨[], 0, true⟩).state.seek_offset = -5 ∧
      (tick 1 ⟨false, 0, ["seek:-5"]⟩ ⟨[], 0, true⟩).calls
        = [DeviceCall.stop, DeviceCall.play (-5)] := by
  constructor <;>
    simp [tick, applyCommand, completionCheck, startsWithSeek, seekPayload,
      parsePyFloat, trimChars, parseDecimalCore, splitOnChar, splitOnCharAux,
      allDigits, natOfDigits]

/-- Claim C10, amended: a seek payload that does not parse as a float is
rejected with a locally logged warning, the command is otherwise ignored (no
device call, paused flag and offset unchanged) and the loop continues; but
the engine performs no `seconds ≥ 0` validation — every payload that parses,
a negative one included, is applied as-is. -/
theorem C10_amended_seek_validation (duration : ℚ) (st : EngineState)
    (inp : TickInput) (c : String) (rest : List String) (t : ℚ)
    (hq : st.queue = c :: rest) (hs : startsWithSeek c = true) :
    (parsePyFloat (seekPayload c) = none → inp.busy = true →
      tick duration st inp =
        ⟨⟨st.is_paused, st.seek_offset, rest⟩,
          (if st.is_paused then []
           else [Event.tick (st.seek_offset + (inp.posMs : ℚ) / 1000) duration])
            ++ [Event.seekError],
          [], none⟩) ∧
    (parsePyFloat (seekPayload c) = some t →
      (tick duration st inp).state.seek_offset = t ∧
        (tick duration st inp).state.is_paused = false ∧
        (tick duration st inp).calls = [DeviceCall.stop, DeviceCall.play t]) := by
  obtain ⟨h1, h2, h3⟩ := startsWithSeek_ne c hs
  constructor
  · intro hp hb
    rcases hpz : st.is_paused <;>
      simp [tick, hq, hp, hb, hpz, applyCommand, h1, h2, h3, hs, completionCheck]
  · intro hp
    rcases hpz : st.is_paused <;> rcases hb : inp.busy <;>
      simp [tick, hq, hp, hb, hpz, applyCommand, h1, h2, h3, hs,
        completionCheck_state, completionCheck_calls]

/-- Witness for `C10_amended_seek_validation`: the malformed `"seek:abc"` is
rejected and ignored; the parseable `"seek:-5"` is applied unvalidated. -/
theorem C10_amended_witness :
    (tick 1 ⟨false, 3, ["seek:abc"]⟩ ⟨[], 100, true⟩ =
      ⟨⟨false, 3, []⟩, [Event.tick (3 + (100 : ℤ) / 1000) 1, Event.seekError],
        [], none⟩) ∧
    ((tick 1 ⟨false, 3, ["seek:-5"]⟩ ⟨[], 100, true⟩).state.seek_offset = -5 ∧
      (tick 1 ⟨false, 3, ["seek:-5"]⟩ ⟨[], 100, true⟩).state.is_paused = false ∧
      (tick 1 ⟨false, 3, ["seek:-5"]⟩ ⟨[], 100, true⟩).calls
        = [DeviceCall.stop, DeviceCall.play (-5)]) := by
  constructor
  · have h := (C10_amended_seek_validation 1 ⟨false, 3, ["seek:abc"]⟩
      ⟨[], 100, true⟩ "seek:abc" [] 0 rfl (by decide)).1 (by decide) rfl
    simpa using h
  · exact (C10_amended_seek_validation 1 ⟨false, 3, ["seek:-5"]⟩
      ⟨[], 100, true⟩ "seek:-5" [] (-5) rfl (by decide)).2
      (by simp [parsePyFloat, seekPayload, trimChars, parseDecimalCore,
        splitOnChar, splitOnCharAux, allDigits, natOfDigits])

/-! ### C5 -/

/-- While the engine is not paused, every tick's event list starts with the
progress report `seek_offset + get_pos()/1000`. -/
lemma tick_events_head (duration : ℚ) (st : EngineState) (inp : TickInput)
    (hp : st.is_paused = false) :
    ∃ tl, (tick duration st inp).events
      = Event.tick (st.seek_offset + (inp.posMs : ℚ) / 1000) duration :: tl := by
  rcases hq : st.queue with _ | ⟨c, rest⟩
  · simp only [tick, hq, completionCheck_events, hp]
    split
    · exact ⟨[], by simp⟩
    · exact ⟨[Event.ended], by simp⟩
  · simp only [tick, hq, hp]
    split
    · exact ⟨(applyCommand ⟨false, st.seek_offset, rest⟩ c).events, by simp⟩
    · rw [completionCheck_events]
      split
      · exact ⟨(applyCommand ⟨false, st.seek_offset, rest⟩ c).events, by simp⟩
      · exact ⟨(applyCommand ⟨false, st.seek_offset, rest⟩ c).events ++ [Event.ended],
          by simp⟩

/-- Claim C5: a `SeekTo(t)` command applied in any state (paused or not)
makes the engine stop the device and restart playback from `t`, sets
`seek_offset = t`, and forces `paused = false` regardless of its prior
value; provided the device reports busy again, the loop continues, and the
next tick's first event is a progress report of `t` plus at most one tick
period (`0 ≤ get_pos() ≤ 200` ms, the loop sleeping 0.2 s per iteration). -/
theorem C5_seek_resumes_and_reports (duration t : ℚ) (st : EngineState)
    (c : String) (rest : List String) (inp inp2 : TickInput)
    (hq : st.queue = c :: rest) (hs : startsWithSeek c = true)
    (hp : parsePyFloat (seekPayload c) = some t)
    (hb : inp.busy = true)
    (h0 : 0 ≤ inp2.posMs) (h200 : (inp2.posMs : ℚ) ≤ 200) :
    (tick duration st inp).state = ⟨false, t, rest⟩ ∧
      (tick duration st inp).calls = [DeviceCall.stop, DeviceCall.play t] ∧
      (tick duration st inp).exit = none ∧
      ∀ arrivals : List String, ∃ e tl,
        (tick duration ⟨false, t, rest ++ arrivals⟩ inp2).events
            = Event.tick e duration :: tl ∧
          t ≤ e ∧ e ≤ t + 1 / 5 := by
  obtain ⟨h1, h2, h3⟩ := startsWithSeek_ne c hs
  refine ⟨?_, ?_, ?_, ?_⟩
  · rcases hpz : st.is_paused <;>
      simp [tick, hq, hp, hb, hpz, applyCommand, h1, h2, h3, hs,
        completionCheck_state]
  · rcases hpz : st.is_paused <;>
      simp [tick, hq, hp, hb, hpz, applyCommand, h1, h2, h3, hs,
        completionCheck_calls]
  · rcases hpz : st.is_paused <;>
      simp [tick, hq, hp, hb, hpz, applyCommand, h1, h2, h3, hs,
        completionCheck_exit]
  · intro arrivals
    obtain ⟨tl, htl⟩ :=
      tick_events_head duration ⟨false, t, rest ++ arrivals⟩ inp2 rfl
    refine ⟨t + (inp2.posMs : ℚ) / 1000, tl, htl, ?_, ?_⟩
    · have hge : (0 : ℚ) ≤ (inp2.posMs : ℚ) := by exact_mod_cast h0
      have := div_nonneg hge (by norm_num : (0 : ℚ) ≤ 1000)
      linarith
    · have := (div_le_div_iff_of_pos_right (by norm_num : (0 : ℚ) < 1000)).2 h200
      have h15 : (200 : ℚ) / 1000 = 1 / 5 := by norm_num
      linarith [h15 ▸ this]

/-- Witness for `C5_seek_resumes_and_reports`: `SeekTo(3.5)` applied while
paused. -/
theorem C5_witness :
    (tick 10 ⟨true, 1, ["seek:3.5"]⟩ ⟨[], 0, true⟩).state
        = ⟨false, 7 / 2, []⟩ ∧
      (tick 10 ⟨true, 1, ["seek:3.5"]⟩ ⟨[], 0, true⟩).calls
        = [DeviceCall.stop, DeviceCall.play (7 / 2)] ∧
      (tick 10 ⟨true, 1, ["seek:3.5"]⟩ ⟨[], 0, true⟩).exit = none ∧
      ∀ arrivals : List String, ∃ e tl,
        (tick 10 ⟨false, 7 / 2, [] ++ arrivals⟩ ⟨[], 100, true⟩).events
            = Event.tick e 10 :: tl ∧
          7 / 2 ≤ e ∧ e ≤ 7 / 2 + 1 / 5 :=
  C5_seek_resumes_and_reports 10 (7 / 2) ⟨true, 1, ["seek:3.5"]⟩ "seek:3.5" []
    ⟨[], 0, true⟩ ⟨[], 100, true⟩ rfl (by decide)
    (by simp [parsePyFloat, seekPayload, trimChars, parseDecimalCore,
      splitOnChar, splitOnCharAux, allDigits, natOfDigits]; norm_num)
    rfl (by norm_num) (by norm_num)

/-! ### C3 -/

lemma applyCommand_staysPaused (st : EngineState) (c : String)
    (hp : st.is_paused = true) (hc : staysPausedCmd c) :
    applyCommand st c = ⟨st, [], [], false⟩ := by
  obtain ⟨h1, h2, h3⟩ := hc
  simp [applyCommand, h1, h2, h3, hp]

/-- While paused, a tick whose dequeued command (if any) is neither `resume`
nor `stop` nor a seek emits nothing, calls nothing, keeps the engine paused
and never exits: the progress report is guarded by `is_paused` and the
completion check is skipped by the `continue`. -/
lemma tick_paused (duration : ℚ) (st : EngineState) (inp : TickInput)
    (hp : st.is_paused = true) (hq : ∀ c ∈ st.queue, staysPausedCmd c) :
    tick duration st inp
      = ⟨⟨true, st.seek_offset, st.queue.drop 1⟩, [], [], none⟩ := by
  obtain ⟨pz, off, q⟩ := st
  simp only at hp
  subst hp
  rcases q with _ | ⟨c, rest⟩
  · simp [tick, completionCheck]
  · have hc := hq c (List.mem_cons_self c rest)
    simp [tick, applyCommand_staysPaused ⟨true, off, rest⟩ c rfl hc,
      completionCheck]

lemma run_paused (duration : ℚ) :
    ∀ (inps : List TickInput) (st : EngineState),
      st.is_paused = true →
      (∀ c ∈ st.queue, staysPausedCmd c) →
      (∀ i ∈ inps, ∀ c ∈ i.arrivals, staysPausedCmd c) →
      (run duration st inps).events = [] ∧
        (run duration st inps).calls = [] ∧
        (run duration st inps).exit = none ∧
        (run duration st inps).state.is_paused = true ∧
        (run duration st inps).state.seek_offset = st.seek_offset ∧
        ∀ c ∈ (run duration st inps).state.queue, staysPausedCmd c := by
  intro inps
  induction inps with
  | nil =>
      intro st hp hq ha
      exact ⟨rfl, rfl, rfl, hp, rfl, hq⟩
  | cons inp rest ih =>
      intro st hp hq ha
      have hq' : ∀ c ∈ st.queue ++ inp.arrivals, staysPausedCmd c := by
        intro c hcm
        rcases List.mem_append.1 hcm with h | h
        · exact hq c h
        · exact ha inp (List.mem_cons_self inp rest) c h
      have ht := tick_paused duration
        ⟨st.is_paused, st.seek_offset, st.queue ++ inp.arrivals⟩ inp hp hq'
      have hq'' : ∀ c ∈ (st.queue ++ inp.arrivals).drop 1, staysPausedCmd c :=
        fun c hcm => hq' c (List.mem_of_mem_drop hcm)
      have ha' : ∀ i ∈ rest, ∀ c ∈ i.arrivals, staysPausedCmd c :=
        fun i hi => ha i (List.mem_cons_of_mem inp hi)
      have hrec := ih ⟨true, st.seek_offset, (st.queue ++ inp.arrivals).drop 1⟩
        rfl hq'' ha'
      simp only [List.drop_one] at hrec
      simp only [run, ht]
      simp only [List.drop_one]
      exact ⟨by simp [hrec.1], by simp [hrec.2.1], hrec.2.2.1, hrec.2.2.2.1,
        hrec.2.2.2.2.1, hrec.2.2.2.2.2⟩

/-- Claim C3: the paused flag is engine-instance state that `speak` does not
reset (lines 28-30 reset `seek_offset`, `duration` and the file only).  If a
session starts with `paused = true` — e.g. the previous document's loop
exited via `Stop` while paused — then, until a `resume`, `stop` or `seek:`
command arrives, the new session emits NO event at all (no `Tick`, no
`Ended`), makes no device call, skips every completion check and never
exits, even though the freshly loaded audio is playing. -/
theorem C3_paused_leaks_into_next_session (duration : ℚ) (st : EngineState)
    (inps : List TickInput)
    (hp : st.is_paused = true)
    (hq : ∀ c ∈ st.queue, staysPausedCmd c)
    (ha : ∀ i ∈ inps, ∀ c ∈ i.arrivals, staysPausedCmd c) :
    (speak duration st inps).events = [] ∧
      (speak duration st inps).calls = [] ∧
      (speak duration st inps).exit = none ∧
      (speak duration st inps).state.is_paused = true := by
  have h := run_paused duration inps ⟨st.is_paused, 0, st.queue⟩ hp hq ha
  exact ⟨h.1, h.2.1, h.2.2.1, h.2.2.2.1⟩

/-- Witness for `C3_paused_leaks_into_next_session`: a session started while
paused, with a `pause` command pending and unrelated arrivals, over a trace
whose device even reports the track over — nothing is emitted. -/
theorem C3_witness :
    ((⟨true, 3, ["pause"]⟩ : EngineState).is_paused = true ∧
      (∀ c ∈ (⟨true, 3, ["pause"]⟩ : EngineState).queue, staysPausedCmd c) ∧
      (∀ i ∈ [(⟨["x"], 100, true⟩ : TickInput), ⟨[], 300, false⟩],
        ∀ c ∈ i.arrivals, staysPausedCmd c)) ∧
      ((speak 2 ⟨true, 3, ["pause"]⟩ [⟨["x"], 100, true⟩, ⟨[], 300, false⟩]).events
          = [] ∧
        (speak 2 ⟨true, 3, ["pause"]⟩ [⟨["x"], 100, true⟩, ⟨[], 300, false⟩]).calls
          = [] ∧
        (speak 2 ⟨true, 3, ["pause"]⟩ [⟨["x"], 100, true⟩, ⟨[], 300, false⟩]).exit
          = none ∧
        (speak 2 ⟨true, 3, ["pause"]⟩
            [⟨["x"], 100, true⟩, ⟨[], 300, false⟩]).state.is_paused = true) :=
  ⟨⟨rfl, by decide, by decide⟩,
    C3_paused_leaks_into_next_session 2 ⟨true, 3, ["pause"]⟩
      [⟨["x"], 100, true⟩, ⟨[], 300, false⟩] rfl (by decide) (by decide)⟩

/-! ### C6 -/

lemma stopTerminal_cons_of_ne (e : Event) (l : List Event)
    (he : e ≠ Event.logStopped) : stopTerminal (e :: l) = stopTerminal l := by
  cases e <;> first | rfl | exact absurd rfl he

lemma stopTerminal_of_not_mem :
    ∀ l : List Event, Event.logStopped ∉ l → stopTerminal l = true
  | [], _ => rfl
  | e :: l, h => by
      have he : e ≠ Event.logStopped := fun hh => h (hh ▸ List.mem_cons_self e l)
      rw [stopTerminal_cons_of_ne e l he]
      exact stopTerminal_of_not_mem l (fun hh => h (List.mem_cons_of_mem e hh))

lemma stopTerminal_append (l₁ l₂ : List Event) (h1 : Event.logStopped ∉ l₁)
    (h2 : stopTerminal l₂ = true) : stopTerminal (l₁ ++ l₂) = true := by
  induction l₁ with
  | nil => simpa using h2
  | cons e l ih =>
      have he : e ≠ Event.logStopped := fun hh => h1 (hh ▸ List.mem_cons_self e l)
      rw [List.cons_append, stopTerminal_cons_of_ne e _ he]
      exact ih (fun hh => h1 (List.mem_cons_of_mem e hh))

/-- A stop log can only come from the `stop` dispatch branch, which also
breaks the loop. -/
lemma tick_stopLog (duration : ℚ) (st : EngineState) (inp : TickInput)
    (h : Event.logStopped ∈ (tick duration st inp).events) :
    (tick duration st inp).exit = some LoopExit.stopped := by
  rcases hq : st.queue with _ | ⟨c, rest⟩
  · simp only [tick, hq, completionCheck_events] at h
    split at h <;> rcases hp : st.is_paused <;> simp [hp] at h
  · rcases hbrk : (applyCommand ⟨st.is_paused, st.seek_offset, rest⟩ c).brk
    · have hno := applyCommand_no_stopLog ⟨st.is_paused, st.seek_offset, rest⟩ c hbrk
      exfalso
      simp only [tick, hq, hbrk, Bool.false_eq_true, if_false,
        completionCheck_events] at h
      split at h <;> rcases hp : st.is_paused <;> simp [hp] at h hno <;> tauto
    · simp [tick, hq, hbrk]

lemma tick_stopTerminal (duration : ℚ) (st : EngineState) (inp : TickInput) :
    stopTerminal (tick duration st inp).events = true := by
  rcases hq : st.queue with _ | ⟨c, rest⟩
  · apply stopTerminal_of_not_mem
    intro hmem
    simp only [tick, hq, completionCheck_events] at hmem
    split at hmem <;> rcases hp : st.is_paused <;> simp [hp] at hmem
  · rcases hbrk : (applyCommand ⟨st.is_paused, st.seek_offset, rest⟩ c).brk
    · apply stopTerminal_of_not_mem
      intro hmem
      have hno := applyCommand_no_stopLog ⟨st.is_paused, st.seek_offset, rest⟩ c hbrk
      simp only [tick, hq, hbrk, Bool.false_eq_true, if_false,
        completionCheck_events] at hmem
      split at hmem <;> rcases hp : st.is_paused <;> simp [hp] at hmem hno <;>
        tauto
    · obtain ⟨hcs, happ⟩ := applyCommand_brk ⟨st.is_paused, st.seek_offset, rest⟩ c hbrk
      simp only [tick, hq, happ]
      apply stopTerminal_append
      · rcases hp : st.is_paused <;> simp [hp]
      · rfl

lemma run_stopTerminal (duration : ℚ) :
    ∀ (inps : List TickInput) (st : EngineState),
      stopTerminal (run duration st inps).events = true := by
  intro inps
  induction inps with
  | nil => intro st; rfl
  | cons inp rest ih =>
      intro st
      rcases hexit : (tick duration
          ⟨st.is_paused, st.seek_offset, st.queue ++ inp.arrivals⟩ inp).exit with _ | e
      · have hnostop : Event.logStopped ∉ (tick duration
            ⟨st.is_paused, st.seek_offset, st.queue ++ inp.arrivals⟩ inp).events := by
          intro hmem
          have h := tick_stopLog duration _ inp hmem
          rw [hexit] at h
          exact Option.noConfusion h
        simp only [run, hexit]
        exact stopTerminal_append _ _ hnostop (ih _)
      · simp only [run, hexit]
        exact tick_stopTerminal duration _ inp

/-- Claim C6: Stop finality.  First part: in every run, once a `stop` is
processed (its log emitted) nothing further follows in the event trace — in
particular no later `Tick` and no `Ended` for that document.  Second part:
the tick that dequeues a `stop` calls `pygame.mixer.music.stop()` (and
nothing else), exits the loop as `Stopped` immediately, and emits no
`Ended`. -/
theorem C6_stop_finality :
    (∀ (duration : ℚ) (st : EngineState) (inps : List TickInput),
        stopTerminal (run duration st inps).events = true) ∧
    (∀ (duration : ℚ) (st : EngineState) (inp : TickInput) (rest : List String),
        st.queue = "stop" :: rest →
        (tick duration st inp).exit = some LoopExit.stopped ∧
          (tick duration st inp).calls = [DeviceCall.stop] ∧
          Event.ended ∉ (tick duration st inp).events) := by
  constructor
  · intro duration st inps
    exact run_stopTerminal duration inps st
  · intro duration st inp rest hq
    refine ⟨?_, ?_, ?_⟩ <;>
      rcases hp : st.is_paused <;>
        simp [tick, hq, hp, applyCommand, startsWithSeek_stop, completionCheck]

/-- Witness for `C6_stop_finality`: the second part applied at a concrete
state with a `stop` at the front of the queue. -/
theorem C6_witness :
    (⟨false, 0, ["stop", "y"]⟩ : EngineState).queue = "stop" :: ["y"] ∧
      ((tick 4 ⟨false, 0, ["stop", "y"]⟩ ⟨[], 50, true⟩).exit
          = some LoopExit.stopped ∧
        (tick 4 ⟨false, 0, ["stop", "y"]⟩ ⟨[], 50, true⟩).calls
          = [DeviceCall.stop] ∧
        Event.ended ∉ (tick 4 ⟨false, 0, ["stop", "y"]⟩ ⟨[], 50, true⟩).events) :=
  ⟨rfl, C6_stop_finality.2 4 ⟨false, 0, ["stop", "y"]⟩ ⟨[], 50, true⟩ ["y"] rfl⟩

/-! ### C4 -/

lemma tickElapsed_append (l₁ l₂ : List Event) :
    tickElapsed (l₁ ++ l₂) = tickElapsed l₁ ++ tickElapsed l₂ := by
  simp [tickElapsed]

lemma tickElapsed_nil : tickElapsed [] = [] := rfl

lemma tickElapsed_cons_tick (p d : ℚ) (l : List Event) :
    tickElapsed (Event.tick p d :: l) = p :: tickElapsed l := by
  simp [tickElapsed]

lemma tickElapsed_cons_ended (l : List Event) :
    tickElapsed (Event.ended :: l) = tickElapsed l := by
  simp [tickElapsed]

lemma applyCommand_tickElapsed (st : EngineState) (c : String) :
    tickElapsed (applyCommand st c).events = [] := by
  rw [tickElapsed, List.filterMap_eq_nil_iff]
  intro e he
  rcases applyCommand_events_sub st c e he with h | h | h | h <;> subst h <;> rfl

/-- Exactly which progress values a tick reports: none while paused, exactly
`seek_offset + get_pos()/1000` otherwise. -/
lemma tickElapsed_tick (duration : ℚ) (st : EngineState) (inp : TickInput) :
    tickElapsed (tick duration st inp).events
      = if st.is_paused
          then []
          else [st.seek_offset + (inp.posMs : ℚ) / 1000] := by
  rcases hq : st.queue with _ | ⟨c, rest⟩
  · simp only [tick, hq, completionCheck_events]
    split <;> rcases hp : st.is_paused <;>
      simp [hp, tickElapsed_nil, tickElapsed_cons_tick, tickElapsed_cons_ended]
  · rcases hbrk : (applyCommand ⟨st.is_paused, st.seek_offset, rest⟩ c).brk
    · simp only [tick, hq, hbrk, Bool.false_eq_true, if_false,
        completionCheck_events]
      split <;> rcases hp : st.is_paused <;>
        simp [hp, tickElapsed_append, applyCommand_tickElapsed, tickElapsed_nil,
          tickElapsed_cons_tick, tickElapsed_cons_ended]
    · simp only [tick, hq, hbrk, if_pos]
      rcases hp : st.is_paused <;>
        simp [hp, tickElapsed_append, applyCommand_tickElapsed, tickElapsed_nil,
          tickElapsed_cons_tick, tickElapsed_cons_ended]

lemma tick_seek_offset_no_seek (duration : ℚ) (st : EngineState)
    (inp : TickInput) (hq : ∀ c ∈ st.queue, startsWithSeek c = false) :
    (tick duration st inp).state.seek_offset = st.seek_offset := by
  rcases h : st.queue with _ | ⟨c, rest⟩
  · simp [tick, h, completionCheck_state]
  · have hc : startsWithSeek c = false := by
      apply hq
      rw [h]
      exact List.mem_cons_self c rest
    rcases hbrk : (applyCommand ⟨st.is_paused, st.seek_offset, rest⟩ c).brk
    · have hbrk' : ¬((applyCommand ⟨st.is_paused, st.seek_offset, rest⟩ c).brk
          = true) := by simp [hbrk]
      simp only [tick, h, if_neg hbrk', completionCheck_state]
      exact applyCommand_state_seek_offset ⟨st.is_paused, st.seek_offset, rest⟩ c hc
    · obtain ⟨hcs, happ⟩ := applyCommand_brk ⟨st.is_paused, st.seek_offset, rest⟩ c hbrk
      simp [tick, h, happ]

lemma run_tickElapsed_sublist (duration : ℚ) :
    ∀ (inps : List TickInput) (st : EngineState),
      (∀ c ∈ st.queue, startsWithSeek c = false) →
      (∀ i ∈ inps, ∀ c ∈ i.arrivals, startsWithSeek c = false) →
      List.Sublist (tickElapsed (run duration st inps).events)
        (inps.map (fun i => st.seek_offset + (i.posMs : ℚ) / 1000)) := by
  intro inps
  induction inps with
  | nil =>
      intro st _ _
      simp [run, tickElapsed]
  | cons inp rest ih =>
      intro st hq ha
      have hqS : ∀ c ∈ st.queue ++ inp.arrivals, startsWithSeek c = false := by
        intro c hc
        rcases List.mem_append.1 hc with h | h
        · exact hq c h
        · exact ha inp (List.mem_cons_self inp rest) c h
      have hoff : (tick duration
          ⟨st.is_paused, st.seek_offset, st.queue ++ inp.arrivals⟩ inp).state.seek_offset
            = st.seek_offset :=
        tick_seek_offset_no_seek duration _ inp hqS
      have hqrest : ∀ c ∈ (tick duration
          ⟨st.is_paused, st.seek_offset, st.queue ++ inp.arrivals⟩ inp).state.queue,
            startsWithSeek c = false := by
        intro c hc
        rw [tick_queue] at hc
        exact hqS c (List.mem_of_mem_drop hc)
      have harest : ∀ i ∈ rest, ∀ c ∈ i.arrivals, startsWithSeek c = false :=
        fun i hi => ha i (List.mem_cons_of_mem inp hi)
      have hTE := tickElapsed_tick duration
        ⟨st.is_paused, st.seek_offset, st.queue ++ inp.arrivals⟩ inp
      rcases hexit : (tick duration
          ⟨st.is_paused, st.seek_offset, st.queue ++ inp.arrivals⟩ inp).exit with _ | e
      · have hrec := ih (tick duration
          ⟨st.is_paused, st.seek_offset, st.queue ++ inp.arrivals⟩ inp).state
            hqrest harest
        rw [hoff] at hrec
        simp only [run, hexit, List.map_cons]
        rw [tickElapsed_append, hTE]
        rcases hp : st.is_paused
        · rw [hp] at hrec
          simp only [hp, Bool.false_eq_true, if_false, List.singleton_append]
          exact List.Sublist.cons₂ _ hrec
        · rw [hp] at hrec
          simp only [hp, if_pos, List.nil_append]
          exact List.Sublist.cons _ hrec
      · simp only [run, hexit, List.map_cons]
        rw [hTE]
        rcases hp : st.is_paused
        · simp only [hp, Bool.false_eq_true, if_false]
          exact List.Sublist.cons₂ _ (List.nil_sublist _)
        · simp only [hp, if_pos]
          exact List.nil_sublist _

/-- Claim C4: position invariant of the progress reports.  (1) Every `Tick`
event carries exactly `seek_offset + get_pos()/1000` as its progress and the
track duration as its duration.  (2) While paused no `Tick` is emitted at
all — the reported position is frozen.  (3) In any run without seek
commands whose device readings `get_pos()` are non-decreasing, the
successive reported `Tick.elapsed` values are non-decreasing. -/
theorem C4_position_monotone :
    (∀ (duration : ℚ) (st : EngineState) (inp : TickInput) (p d : ℚ),
        Event.tick p d ∈ (tick duration st inp).events →
        p = st.seek_offset + (inp.posMs : ℚ) / 1000 ∧ d = duration) ∧
    (∀ (duration : ℚ) (st : EngineState) (inp : TickInput),
        st.is_paused = true →
        ∀ p d : ℚ, Event.tick p d ∉ (tick duration st inp).events) ∧
    (∀ (duration : ℚ) (st : EngineState) (inps : List TickInput),
        (∀ c ∈ st.queue, startsWithSeek c = false) →
        (∀ i ∈ inps, ∀ c ∈ i.arrivals, startsWithSeek c = false) →
        (inps.map (fun i => i.posMs)).Pairwise (· ≤ ·) →
        (tickElapsed (run duration st inps).events).Pairwise (· ≤ ·)) := by
  refine ⟨?_, ?_, ?_⟩
  · intro duration st inp p d hmem
    rcases tick_events_shape duration st inp _ hmem with h | h | h | h | h | h
    · have h1 : p = st.seek_offset + (inp.posMs : ℚ) / 1000 := by
        injection h with h1 h2
      have h2 : d = duration := by
        injection h with h1 h2
      exact ⟨h1, h2⟩
    all_goals simp at h
  · intro duration st inp hp p d hmem
    have hTE := tickElapsed_tick duration st inp
    rw [hp] at hTE
    have hmem' : p ∈ tickElapsed (tick duration st inp).events := by
      rw [tickElapsed, List.mem_filterMap]
      exact ⟨Event.tick p d, hmem, rfl⟩
    rw [hTE] at hmem'
    simp at hmem'
  · intro duration st inps hq ha hmono
    have hsub := run_tickElapsed_sublist duration inps st hq ha
    have hmap : (inps.map (fun i => st.seek_offset + (i.posMs : ℚ) / 1000)).Pairwise
        (· ≤ ·) := by
      have h1 : inps.Pairwise (fun a b => a.posMs ≤ b.posMs) :=
        (List.pairwise_map).1 hmono
      refine List.Pairwise.map _ (fun a b hab => ?_) h1
      have hc : (a.posMs : ℚ) ≤ (b.posMs : ℚ) := by exact_mod_cast hab
      have hd := (div_le_div_iff_of_pos_right (by norm_num : (0 : ℚ) < 1000)).2 hc
      linarith
    exact hmap.sublist hsub

/-- Witness for `C4_position_monotone`: the monotonicity part applied to a
three-tick run with non-decreasing device readings and no commands. -/
theorem C4_witness :
    ((∀ c ∈ (⟨false, 0, []⟩ : EngineState).queue, startsWithSeek c = false) ∧
      (∀ i ∈ [(⟨[], 0, true⟩ : TickInput), ⟨[], 100, true⟩, ⟨[], 250, false⟩],
        ∀ c ∈ i.arrivals, startsWithSeek c = false) ∧
      (([(⟨[], 0, true⟩ : TickInput), ⟨[], 100, true⟩,
          ⟨[], 250, false⟩].map (fun i => i.posMs)).Pairwise (· ≤ ·))) ∧
      (tickElapsed (run 1 ⟨false, 0, []⟩
          [⟨[], 0, true⟩, ⟨[], 100, true⟩, ⟨[], 250, false⟩]).events).Pairwise
        (· ≤ ·) :=
  ⟨⟨by decide, by decide, by decide⟩,
    C4_position_monotone.2.2 1 ⟨false, 0, []⟩
      [⟨[], 0, true⟩, ⟨[], 100, true⟩, ⟨[], 250, false⟩]
      (by decide) (by decide) (by decide)⟩

/-! ### C7 and C8 -/

lemma titleEvents_append (l₁ l₂ : List Event) :
    titleEvents (l₁ ++ l₂) = titleEvents l₁ ++ titleEvents l₂ := by
  simp [titleEvents]

lemma titleEvents_cons_playLog (s : String) (l : List Event) :
    titleEvents (Event.playLog s :: l) = s :: titleEvents l := by
  simp [titleEvents]

lemma titleEvents_tick (duration : ℚ) (st : EngineState) (inp : TickInput) :
    titleEvents (tick duration st inp).events = [] := by
  rw [titleEvents, List.filterMap_eq_nil_iff]
  intro e he
  rcases tick_events_shape duration st inp e he with h | h | h | h | h | h <;>
    subst h <;> rfl

lemma titleEvents_run (duration : ℚ) :
    ∀ (inps : List TickInput) (st : EngineState),
      titleEvents (run duration st inps).events = [] := by
  intro inps
  induction inps with
  | nil => intro st; rfl
  | cons inp rest ih =>
      intro st
      rcases hexit : (tick duration
          ⟨st.is_paused, st.seek_offset, st.queue ++ inp.arrivals⟩ inp).exit with _ | e
      · simp only [run, hexit]
        rw [titleEvents_append, titleEvents_tick, ih]
        rfl
      · simp only [run, hexit]
        exact titleEvents_tick duration _ inp

lemma titleEvents_playPapers :
    ∀ (papers : List (Paper × ℚ × List TickInput)) (st : EngineState),
      titleEvents (playPapers st papers).events
        = papers.map (fun x => x.1.title) := by
  intro papers
  induction papers with
  | nil => intro st; rfl
  | cons entry rest ih =>
      intro st
      obtain ⟨p, dur, inps⟩ := entry
      simp only [playPapers, List.map_cons]
      rw [titleEvents_append, List.cons_append, titleEvents_cons_playLog,
        titleEvents_append]
      rw [show titleEvents (speak dur st inps).events = [] from
        titleEvents_run dur inps ⟨st.is_paused, 0, st.queue⟩]
      rw [show titleEvents [Event.delay 1] = [] from rfl, ih]
      simp

lemma count_workflowDone_tick (duration : ℚ) (st : EngineState)
    (inp : TickInput) :
    (tick duration st inp).events.count Event.workflowDone = 0 := by
  rw [List.count_eq_zero]
  intro hmem
  rcases tick_events_shape duration st inp _ hmem with h | h | h | h | h | h <;>
    simp at h

lemma count_workflowDone_run (duration : ℚ) :
    ∀ (inps : List TickInput) (st : EngineState),
      (run duration st inps).events.count Event.workflowDone = 0 := by
  intro inps
  induction inps with
  | nil => intro st; rfl
  | cons inp rest ih =>
      intro st
      rcases hexit : (tick duration
          ⟨st.is_paused, st.seek_offset, st.queue ++ inp.arrivals⟩ inp).exit with _ | e
      · simp only [run, hexit]
        rw [List.count_append, count_workflowDone_tick, ih]
      · simp only [run, hexit]
        exact count_workflowDone_tick duration _ inp

lemma count_workflowDone_playPapers :
    ∀ (papers : List (Paper × ℚ × List TickInput)) (st : EngineState),
      (playPapers st papers).events.count Event.workflowDone = 0 := by
  intro papers
  induction papers with
  | nil => intro st; rfl
  | cons entry rest ih =>
      intro st
      obtain ⟨p, dur, inps⟩ := entry
      simp only [playPapers]
      rw [List.count_append, List.cons_append, List.count_cons]
      rw [List.count_append]
      rw [show ((speak dur st inps).events.count Event.workflowDone) = 0 from
        count_workflowDone_run dur inps ⟨st.is_paused, 0, st.queue⟩]
      rw [show ([Event.delay 1].count Event.workflowDone) = 0 from rfl, ih]
      rfl

/-- Claim C7: the Playlist Runner handles each document in order and
continues unconditionally.  First part: the sequence of per-paper
announcements of a whole run is exactly the papers' titles in playlist
order, whatever happens inside each session (`Ended` or `Stopped` alike).
Second part: the runner's step on a non-empty playlist literally announces
the head paper, runs its session to completion, sleeps one second, and then
recurses on the tail starting from whatever state the session left — with
no condition examined in between. -/
theorem C7_runner_processes_playlist_in_order :
    (∀ (st : EngineState) (papers : List (Paper × ℚ × List TickInput)),
        titleEvents (playAllPapers st papers).events
          = papers.map (fun x => x.1.title)) ∧
    (∀ (st : EngineState) (p : Paper) (dur : ℚ) (inps : List TickInput)
        (rest : List (Paper × ℚ × List TickInput)),
        playPapers st ((p, dur, inps) :: rest) =
          ⟨(playPapers (speak dur st inps).state rest).state,
            (Event.playLog p.title :: (speak dur st inps).events
                ++ [Event.delay 1])
              ++ (playPapers (speak dur st inps).state rest).events⟩) := by
  constructor
  · intro st papers
    show titleEvents ((playPapers st papers).events ++ [Event.workflowDone]) = _
    rw [titleEvents_append, titleEvents_playPapers]
    simp [titleEvents]
  · intro st p dur inps rest
    rfl

/-- Claim C8: `WorkflowDone` is emitted exactly once per playlist run, and
it is the very last event — in particular it comes only after the last
document's loop has completed. -/
theorem C8_workflow_done_exactly_once :
    (∀ (st : EngineState) (papers : List (Paper × ℚ × List TickInput)),
        (playAllPapers st papers).events.count Event.workflowDone = 1) ∧
    (∀ (st : EngineState) (papers : List (Paper × ℚ × List TickInput)),
        (playAllPapers st papers).events.getLast? = some Event.workflowDone) := by
  constructor
  · intro st papers
    show ((playPapers st papers).events ++ [Event.workflowDone]).count
      Event.workflowDone = 1
    rw [List.count_append, count_workflowDone_playPapers]
    rfl
  · intro st papers
    show ((playPapers st papers).events ++ [Event.workflowDone]).getLast? = _
    simp

end PaperReader
